import Mathlib

/-!
Verification development for `cartridge/shop/admin.py` (Django admin
configuration for a fireplace shop built on Mezzanine/Cartridge).

The file is shallowly embedded: module-level configuration computations
become pure Lean functions of the settings flags, and the stateful
`ProductAdmin.save_formset` method becomes a function producing an explicit
trace of the framework/manager operations it performs, in order.  Python
list/string primitives used by the source (`list.insert`, slice assignment,
`str.replace`, `QueryDict` access) are modelled by dedicated helpers that
follow CPython semantics at the call sites used here.
-/

namespace ShopAdmin

/-- Python `list.insert(i, a)` for a non-negative index `i`: inserts before
position `i`, appending when `i` is past the end (CPython clamps). -/
def pyInsert (i : Nat) (a : α) : List α → List α
  | [] => [a]
  | x :: xs => if i = 0 then a :: x :: xs else x :: pyInsert (i - 1) a xs

/-- Python slice assignment `l[i:i] = xs` for a non-negative index `i`:
splices `xs` in before position `i` (clamped to the length). -/
def pySplice (i : Nat) (xs l : List α) : List α :=
  l.take i ++ xs ++ l.drop i

/-- Python `f.replace("-DELETE", "-id")` on a character list, as called in
`save_formset`: CPython `str.replace` rewrites the non-overlapping
occurrences of the pattern left to right.  The source only ever calls
`replace` with the literal pattern `"-DELETE"`, so the pattern is fixed
here. -/
def replaceDeleteAux : List Char → List Char
  | '-' :: 'D' :: 'E' :: 'L' :: 'E' :: 'T' :: 'E' :: rest =>
    '-' :: 'i' :: 'd' :: replaceDeleteAux rest
  | c :: rest => c :: replaceDeleteAux rest
  | [] => []

/-- Python `f.replace("-DELETE", "-id")` on strings. -/
def replaceDeleteWithId (s : String) : String :=
  ⟨replaceDeleteAux s.toList⟩

/-- Python `s.startswith(pre)`. -/
def pyStartsWith (s pre : String) : Bool :=
  pre.toList.isPrefixOf s.toList

/-- Python `s.endswith(suf)`. -/
def pyEndsWith (s suf : String) : Bool :=
  suf.toList.isSuffixOf s.toList

/-- A parsed POST body: the posted `(key, value)` pairs in order.  Django's
`QueryDict` groups repeated keys, so key iteration yields each distinct key
once (first-occurrence order), `getlist` yields all values for a key, and
`get` yields the last value (or `None`). -/
structure Request where
  post : List (String × String)
deriving DecidableEq, Repr

/-- `request.POST.getlist(k)`: all values posted under key `k`, in order. -/
def Request.getlist (r : Request) (k : String) : List String :=
  r.post.filterMap (fun p => if p.1 = k then some p.2 else none)

/-- `request.POST.get(k)`: the last value posted under `k`, `none` when the
key is absent (Django's `MultiValueDict.__getitem__` returns `list[-1]`). -/
def Request.get (r : Request) (k : String) : Option String :=
  (r.getlist k).getLast?

/-- Helper for key iteration: distinct keys in first-occurrence order. -/
def qdKeysAux (seen : List String) : List (String × String) → List String
  | [] => []
  | (k, _) :: rest =>
    if k ∈ seen then qdKeysAux seen rest else k :: qdKeysAux (k :: seen) rest

/-- `for f in request.POST`: the distinct posted keys, in first-occurrence
order. -/
def Request.keys (r : Request) : List String :=
  qdKeysAux [] r.post

/-- The two inline models of `ProductAdmin.inlines`. -/
inductive FormsetModel
  | productImage
  | productVariation
deriving DecidableEq, Repr

/-- An inline formset instance as handed to `save_formset`: its model class
plus an identity tag, so a trace can say *which* formset object was saved. -/
structure Formset where
  model : FormsetModel
  fsid : Nat
deriving DecidableEq, Repr

/-- The operations `ProductAdmin.save_formset` performs, in the order it
performs them: framework formset saves and `variations` manager calls. -/
inductive ShopEvent
  | saveFormset (fs : Formset)
  | createFromOptions (options : List (String × List String))
  | manageEmpty
  | setDefaultImages (deletedImages : List (Option String))
  | copyDefaultVariation
deriving DecidableEq, Repr

/-- `dict([(f, request.POST.getlist(f)) for f in option_fields if
request.POST.getlist(f)])` from `save_formset`: the selected option values
per option field, keeping only fields with a nonempty selection. -/
def selectedOptions (optionFields : List String) (req : Request) :
    List (String × List String) :=
  optionFields.filterMap (fun f =>
    let vs := req.getlist f
    if vs = [] then none else some (f, vs))

/-- `[request.POST.get(f.replace("-DELETE", "-id")) for f in request.POST
if f.startswith("images-") and f.endswith("-DELETE")]` from `save_formset`:
the ids of image-formset rows marked for deletion. -/
def deletedImageIds (req : Request) : List (Option String) :=
  ((req.keys).filter
      (fun f => pyStartsWith f "images-" && pyEndsWith f "-DELETE")).map
    (fun f => req.get (replaceDeleteWithId f))

/-- `ProductAdmin.save_formset(request, form, formset, change)`.

State threaded explicitly: `st` is the stored `self._images_formset`
attribute (`none` when not yet set).  The result is the updated attribute
plus the ordered trace of operations, or `none` for the `AttributeError`
Python would raise if the variations branch read `self._images_formset`
before any images formset was stored. -/
def save_formset (optionFields : List String) (st : Option Formset)
    (req : Request) (formset : Formset) :
    Option (Option Formset × List ShopEvent) :=
  -- Store the images formset for later saving, otherwise save the formset.
  let stored : Option Formset :=
    if formset.model = FormsetModel.productImage then some formset else st
  let saveEvents : List ShopEvent :=
    if formset.model = FormsetModel.productImage then []
    else [ShopEvent.saveFormset formset]
  -- Run each of the variation manager methods if we're saving the
  -- variations formset.
  if formset.model = FormsetModel.productVariation then
    match stored with
    | none => none
    | some imagesFormset =>
      let options := selectedOptions optionFields req
      let deleted := deletedImageIds req
      some (stored,
        saveEvents ++
          [ShopEvent.createFromOptions options,
           ShopEvent.manageEmpty,
           ShopEvent.setDefaultImages deleted,
           ShopEvent.saveFormset imagesFormset,
           ShopEvent.setDefaultImages deleted,
           ShopEvent.copyDefaultVariation])
  else
    some (stored, saveEvents)

/-- One full product save through the admin: Django calls `save_formset`
once per inline, in the declared order `inlines = (ProductImageAdmin,
ProductVariationAdmin)` — images formset first, then variations formset.
The result is the concatenated operation trace. -/
def productSaveFlow (optionFields : List String) (req : Request)
    (imagesFS variationsFS : Formset) : Option (List ShopEvent) :=
  match save_formset optionFields none req imagesFS with
  | none => none
  | some (st₁, evs₁) =>
    match save_formset optionFields st₁ req variationsFS with
    | none => none
    | some (_, evs₂) => some (evs₁ ++ evs₂)

/-- The full trace of the variations-branch `save_formset` call, used by the
per-claim theorems below. -/
theorem save_formset_variations_eq (optionFields : List String)
    (st : Option Formset) (req : Request) (imgFS varFS : Formset)
    (hst : st = some imgFS)
    (hvar : varFS.model = FormsetModel.productVariation) :
    save_formset optionFields st req varFS =
      some (some imgFS,
        [ShopEvent.saveFormset varFS,
         ShopEvent.createFromOptions (selectedOptions optionFields req),
         ShopEvent.manageEmpty,
         ShopEvent.setDefaultImages (deletedImageIds req),
         ShopEvent.saveFormset imgFS,
         ShopEvent.setDefaultImages (deletedImageIds req),
         ShopEvent.copyDefaultVariation]) := by
  subst hst
  simp [save_formset, hvar]

/-- The images-branch `save_formset` call only stores the formset and
performs nothing. -/
theorem save_formset_images_eq (optionFields : List String)
    (st : Option Formset) (req : Request) (imgFS : Formset)
    (himg : imgFS.model = FormsetModel.productImage) :
    save_formset optionFields st req imgFS = some (some imgFS, []) := by
  simp [save_formset, himg]

/-- The full product-save trace: images call stores, variations call does
all the work. -/
theorem productSaveFlow_eq (optionFields : List String) (req : Request)
    (imgFS varFS : Formset)
    (himg : imgFS.model = FormsetModel.productImage)
    (hvar : varFS.model = FormsetModel.productVariation) :
    productSaveFlow optionFields req imgFS varFS =
      some [ShopEvent.saveFormset varFS,
        ShopEvent.createFromOptions (selectedOptions optionFields req),
        ShopEvent.manageEmpty,
        ShopEvent.setDefaultImages (deletedImageIds req),
        ShopEvent.saveFormset imgFS,
        ShopEvent.setDefaultImages (deletedImageIds req),
        ShopEvent.copyDefaultVariation] := by
  simp [productSaveFlow, save_formset_images_eq optionFields none req imgFS himg,
    save_formset_variations_eq optionFields (some imgFS) req imgFS varFS rfl hvar]

/-- C1: when `ProductAdmin.save_formset` is invoked for the variations
formset, the operations run in exactly this order: first the variations
formset itself is saved, then `variations.create_from_options` is called
with the option selections taken from the request, then
`variations.manage_empty` is called; no manager method runs before the
variations formset save (the formset save is the very first operation of
the trace). -/
theorem save_formset_variations_order (optionFields : List String)
    (req : Request) (imgFS varFS : Formset)
    (hvar : varFS.model = FormsetModel.productVariation) :
    ∃ evs, save_formset optionFields (some imgFS) req varFS =
        some (some imgFS, evs) ∧
      evs.head? = some (ShopEvent.saveFormset varFS) ∧
      evs[1]? = some (ShopEvent.createFromOptions
        (selectedOptions optionFields req)) ∧
      evs[2]? = some ShopEvent.manageEmpty := by
  exact ⟨_, save_formset_variations_eq optionFields (some imgFS) req imgFS
    varFS rfl hvar, rfl, rfl, rfl⟩

/-- Witness for C1 at a concrete request and concrete formsets. -/
theorem save_formset_variations_order_witness :
    (Formset.mk FormsetModel.productVariation 1).model =
        FormsetModel.productVariation ∧
    ∃ evs, save_formset ["option1"] (some ⟨FormsetModel.productImage, 0⟩)
        ⟨[("option1", "Red")]⟩ ⟨FormsetModel.productVariation, 1⟩ =
        some (some ⟨FormsetModel.productImage, 0⟩, evs) ∧
      evs.head? =
        some (ShopEvent.saveFormset ⟨FormsetModel.productVariation, 1⟩) ∧
      evs[1]? = some (ShopEvent.createFromOptions
        (selectedOptions ["option1"] ⟨[("option1", "Red")]⟩)) ∧
      evs[2]? = some ShopEvent.manageEmpty :=
  ⟨rfl, save_formset_variations_order ["option1"] ⟨[("option1", "Red")]⟩
    ⟨FormsetModel.productImage, 0⟩ ⟨FormsetModel.productVariation, 1⟩ rfl⟩

/-- C2: the images formset is never saved at the time `save_formset`
receives it (that call just stores it and performs no operation); over the
whole product save, the stored images formset is saved exactly once, and
that save happens after the variations formset save (position 0) and after
`set_default_images` has been run on the deleted-image ids (position 3),
namely at position 4 of the trace. -/
theorem images_formset_deferred_save (optionFields : List String)
    (req : Request) (imgFS varFS : Formset)
    (himg : imgFS.model = FormsetModel.productImage)
    (hvar : varFS.model = FormsetModel.productVariation) :
    save_formset optionFields none req imgFS = some (some imgFS, []) ∧
    ∃ tr, productSaveFlow optionFields req imgFS varFS = some tr ∧
      tr.count (ShopEvent.saveFormset imgFS) = 1 ∧
      tr[0]? = some (ShopEvent.saveFormset varFS) ∧
      tr[3]? = some (ShopEvent.setDefaultImages (deletedImageIds req)) ∧
      tr[4]? = some (ShopEvent.saveFormset imgFS) := by
  have hne : varFS ≠ imgFS := by
    intro h
    rw [h, himg] at hvar
    simp at hvar
  refine ⟨save_formset_images_eq optionFields none req imgFS himg,
    _, productSaveFlow_eq optionFields req imgFS varFS himg hvar, ?_, rfl, rfl, rfl⟩
  simp [List.count_cons, hne]

/-- Witness for C2 at a concrete request and concrete formsets. -/
theorem images_formset_deferred_save_witness :
    (Formset.mk FormsetModel.productImage 0).model =
        FormsetModel.productImage ∧
    (Formset.mk FormsetModel.productVariation 1).model =
        FormsetModel.productVariation ∧
    (save_formset [] none ⟨[("images-0-DELETE", "on"), ("images-0-id", "7")]⟩
        ⟨FormsetModel.productImage, 0⟩ =
      some (some ⟨FormsetModel.productImage, 0⟩, []) ∧
    ∃ tr, productSaveFlow [] ⟨[("images-0-DELETE", "on"), ("images-0-id", "7")]⟩
        ⟨FormsetModel.productImage, 0⟩ ⟨FormsetModel.productVariation, 1⟩ =
        some tr ∧
      tr.count (ShopEvent.saveFormset ⟨FormsetModel.productImage, 0⟩) = 1 ∧
      tr[0]? = some (ShopEvent.saveFormset ⟨FormsetModel.productVariation, 1⟩) ∧
      tr[3]? = some (ShopEvent.setDefaultImages
        (deletedImageIds ⟨[("images-0-DELETE", "on"), ("images-0-id", "7")]⟩)) ∧
      tr[4]? = some (ShopEvent.saveFormset ⟨FormsetModel.productImage, 0⟩)) :=
  ⟨rfl, rfl, images_formset_deferred_save []
    ⟨[("images-0-DELETE", "on"), ("images-0-id", "7")]⟩
    ⟨FormsetModel.productImage, 0⟩ ⟨FormsetModel.productVariation, 1⟩ rfl rfl⟩

/-- C6: the list passed to `set_default_images` is exactly the ids of the
image-formset rows marked for deletion in the request: the value of the
`"-id"` key corresponding (by CPython `replace("-DELETE", "-id")`) to each
distinct POST key that starts with `"images-"` and ends with `"-DELETE"`,
and nothing else; every `set_default_images` call in the trace receives
exactly this list. -/
theorem set_default_images_ids_exact (optionFields : List String)
    (req : Request) (imgFS varFS : Formset)
    (hvar : varFS.model = FormsetModel.productVariation) :
    ∃ evs, save_formset optionFields (some imgFS) req varFS =
        some (some imgFS, evs) ∧
      ShopEvent.setDefaultImages
        (((req.keys).filter
            (fun f => pyStartsWith f "images-" && pyEndsWith f "-DELETE")).map
          (fun f => req.get (replaceDeleteWithId f))) ∈ evs ∧
      ∀ d, ShopEvent.setDefaultImages d ∈ evs →
        d = ((req.keys).filter
            (fun f => pyStartsWith f "images-" && pyEndsWith f "-DELETE")).map
          (fun f => req.get (replaceDeleteWithId f)) := by
  refine ⟨_, save_formset_variations_eq optionFields (some imgFS) req imgFS
    varFS rfl hvar, ?_, ?_⟩
  · simp [deletedImageIds]
  · intro d hd
    simp only [deletedImageIds, List.mem_cons, List.not_mem_nil, or_false] at hd
    rcases hd with h | h | h | h | h | h | h <;>
      first
        | exact ((ShopEvent.setDefaultImages.injEq _ _).mp h)
        | exact absurd h (by simp)

/-- Witness for C6 at a concrete request marking one image row deleted. -/
theorem set_default_images_ids_exact_witness :
    (Formset.mk FormsetModel.productVariation 1).model =
        FormsetModel.productVariation ∧
    ∃ evs, save_formset []
        (some ⟨FormsetModel.productImage, 0⟩)
        ⟨[("images-0-DELETE", "on"), ("images-0-id", "7"), ("title", "t")]⟩
        ⟨FormsetModel.productVariation, 1⟩ =
        some (some ⟨FormsetModel.productImage, 0⟩, evs) ∧
      ShopEvent.setDefaultImages
        (((Request.keys ⟨[("images-0-DELETE", "on"), ("images-0-id", "7"),
              ("title", "t")]⟩).filter
            (fun f => pyStartsWith f "images-" && pyEndsWith f "-DELETE")).map
          (fun f => Request.get ⟨[("images-0-DELETE", "on"),
              ("images-0-id", "7"), ("title", "t")]⟩
            (replaceDeleteWithId f))) ∈ evs ∧
      ∀ d, ShopEvent.setDefaultImages d ∈ evs →
        d = ((Request.keys ⟨[("images-0-DELETE", "on"), ("images-0-id", "7"),
              ("title", "t")]⟩).filter
            (fun f => pyStartsWith f "images-" && pyEndsWith f "-DELETE")).map
          (fun f => Request.get ⟨[("images-0-DELETE", "on"),
              ("images-0-id", "7"), ("title", "t")]⟩
            (replaceDeleteWithId f)) :=
  ⟨rfl, set_default_images_ids_exact []
    ⟨[("images-0-DELETE", "on"), ("images-0-id", "7"), ("title", "t")]⟩
    ⟨FormsetModel.productImage, 0⟩ ⟨FormsetModel.productVariation, 1⟩ rfl⟩

/-- The denormalised price fields duplicated between `Product` and
`ProductVariation` (the fields of the abstract `Priced` model). -/
structure Priced where
  unit_price : Int
  sale_price : Int
deriving DecidableEq, Repr

/-- The slice of database state the save-time manager methods act on: how
many variation rows the product has, the product's denormalised price
fields, and the price fields of its designated default variation. -/
structure ProductState where
  variationsCount : Nat
  productPriced : Priced
  defaultVariationPriced : Priced
deriving DecidableEq, Repr

/-- Modelled from the spec: `variations.manage_empty` is a variations
manager method defined in `cartridge/shop/models.py`, which is not part of
this excerpt.  Per the spec it ensures at least one variation record exists
for the product, creating a default one when none exist. -/
def manage_empty (s : ProductState) : ProductState :=
  if s.variationsCount = 0 then { s with variationsCount := 1 } else s

/-- Modelled from the spec: `Product.copy_default_variation` is defined in
`cartridge/shop/models.py`, which is not part of this excerpt.  Per the
spec it copies the designated default variation's price fields onto the
parent product record for denormalised display. -/
def copy_default_variation (s : ProductState) : ProductState :=
  { s with productPriced := s.defaultVariationPriced }

/-- The database effects of the remaining traced operations (formset
saves, `create_from_options`, `set_default_images`), whose implementations
live in the admin framework and in `cartridge/shop/models.py` outside this
excerpt.  They are kept abstract and are constrained only by explicit
hypotheses of the theorems that need them. -/
structure ShopEffects where
  saveFormsetEff : Formset → ProductState → ProductState
  createFromOptionsEff :
    List (String × List String) → ProductState → ProductState
  setDefaultImagesEff : List (Option String) → ProductState → ProductState

/-- Interpret one traced operation as a state transformer. -/
def applyEvent (eff : ShopEffects) (s : ProductState) :
    ShopEvent → ProductState
  | ShopEvent.saveFormset fs => eff.saveFormsetEff fs s
  | ShopEvent.createFromOptions o => eff.createFromOptionsEff o s
  | ShopEvent.manageEmpty => manage_empty s
  | ShopEvent.setDefaultImages d => eff.setDefaultImagesEff d s
  | ShopEvent.copyDefaultVariation => copy_default_variation s

/-- Run a trace of operations from an initial state. -/
def runTrace (eff : ShopEffects) (s : ProductState)
    (tr : List ShopEvent) : ProductState :=
  tr.foldl (applyEvent eff) s

/-- C3: `copy_default_variation` is the final step of every product save:
the trace ends with it, strictly after the images formset save (position 4)
and after the second `set_default_images` run (position 5).  Consequently,
whatever database effects the other operations have, on completion the
product's denormalised price fields equal those of its designated default
variation. -/
theorem copy_default_variation_final (optionFields : List String)
    (req : Request) (imgFS varFS : Formset)
    (himg : imgFS.model = FormsetModel.productImage)
    (hvar : varFS.model = FormsetModel.productVariation) :
    ∃ tr, productSaveFlow optionFields req imgFS varFS = some tr ∧
      tr.getLast? = some ShopEvent.copyDefaultVariation ∧
      tr[4]? = some (ShopEvent.saveFormset imgFS) ∧
      tr[5]? = some (ShopEvent.setDefaultImages (deletedImageIds req)) ∧
      tr[6]? = some ShopEvent.copyDefaultVariation ∧
      tr.length = 7 ∧
      ∀ (eff : ShopEffects) (s₀ : ProductState),
        (runTrace eff s₀ tr).productPriced =
          (runTrace eff s₀ tr).defaultVariationPriced := by
  refine ⟨_, productSaveFlow_eq optionFields req imgFS varFS himg hvar,
    rfl, rfl, rfl, rfl, rfl, ?_⟩
  intro eff s₀
  simp [runTrace, applyEvent, copy_default_variation]

/-- Witness for C3 at a concrete request, formsets, effects and state. -/
theorem copy_default_variation_final_witness :
    (Formset.mk FormsetModel.productImage 0).model =
        FormsetModel.productImage ∧
    (Formset.mk FormsetModel.productVariation 1).model =
        FormsetModel.productVariation ∧
    ∃ tr, productSaveFlow [] ⟨[]⟩ ⟨FormsetModel.productImage, 0⟩
        ⟨FormsetModel.productVariation, 1⟩ = some tr ∧
      tr.getLast? = some ShopEvent.copyDefaultVariation ∧
      tr[4]? = some (ShopEvent.saveFormset ⟨FormsetModel.productImage, 0⟩) ∧
      tr[5]? = some (ShopEvent.setDefaultImages (deletedImageIds ⟨[]⟩)) ∧
      tr[6]? = some ShopEvent.copyDefaultVariation ∧
      tr.length = 7 ∧
      ∀ (eff : ShopEffects) (s₀ : ProductState),
        (runTrace eff s₀ tr).productPriced =
          (runTrace eff s₀ tr).defaultVariationPriced :=
  ⟨rfl, rfl, copy_default_variation_final [] ⟨[]⟩
    ⟨FormsetModel.productImage, 0⟩ ⟨FormsetModel.productVariation, 1⟩ rfl rfl⟩

/-- C4: `manage_empty` is part of every product-save trace — the save path
never consults `SHOP_USE_VARIATIONS`, so this holds in both modes — and,
given that the images formset save and `set_default_images` do not touch
the number of variation rows, after the save the product always has at
least one variation record. -/
theorem manage_empty_unconditional (optionFields : List String)
    (req : Request) (imgFS varFS : Formset)
    (himg : imgFS.model = FormsetModel.productImage)
    (hvar : varFS.model = FormsetModel.productVariation)
    (eff : ShopEffects)
    (heffImg : ∀ fs s, fs.model = FormsetModel.productImage →
      (eff.saveFormsetEff fs s).variationsCount = s.variationsCount)
    (heffSdi : ∀ d s,
      (eff.setDefaultImagesEff d s).variationsCount = s.variationsCount) :
    ∃ tr, productSaveFlow optionFields req imgFS varFS = some tr ∧
      ShopEvent.manageEmpty ∈ tr ∧
      ∀ s₀ : ProductState, 1 ≤ (runTrace eff s₀ tr).variationsCount := by
  refine ⟨_, productSaveFlow_eq optionFields req imgFS varFS himg hvar,
    by simp, ?_⟩
  intro s₀
  have hImg : ∀ s, (eff.saveFormsetEff imgFS s).variationsCount =
      s.variationsCount := fun s => heffImg imgFS s himg
  have hcopy : ∀ s : ProductState,
      (copy_default_variation s).variationsCount = s.variationsCount :=
    fun s => rfl
  have hme : ∀ s : ProductState, 1 ≤ (manage_empty s).variationsCount := by
    intro s
    by_cases h : s.variationsCount = 0
    · simp [manage_empty, h]
    · simp only [manage_empty, h, if_false]
      omega
  simp only [runTrace, List.foldl_cons, List.foldl_nil, applyEvent,
    hcopy, heffSdi, hImg]
  exact hme _

/-- Witness for C4 at a concrete request, formsets and identity effects. -/
theorem manage_empty_unconditional_witness :
    (Formset.mk FormsetModel.productImage 0).model =
        FormsetModel.productImage ∧
    (Formset.mk FormsetModel.productVariation 1).model =
        FormsetModel.productVariation ∧
    (∀ fs s, fs.model = FormsetModel.productImage →
      ((ShopEffects.mk (fun _ s => s) (fun _ s => s)
          (fun _ s => s)).saveFormsetEff fs s).variationsCount =
        s.variationsCount) ∧
    (∀ d s,
      ((ShopEffects.mk (fun _ s => s) (fun _ s => s)
          (fun _ s => s)).setDefaultImagesEff d s).variationsCount =
        s.variationsCount) ∧
    ∃ tr, productSaveFlow [] ⟨[]⟩ ⟨FormsetModel.productImage, 0⟩
        ⟨FormsetModel.productVariation, 1⟩ = some tr ∧
      ShopEvent.manageEmpty ∈ tr ∧
      ∀ s₀ : ProductState, 1 ≤
        (runTrace (ShopEffects.mk (fun _ s => s) (fun _ s => s)
          (fun _ s => s)) s₀ tr).variationsCount :=
  ⟨rfl, rfl, fun _ _ _ => rfl, fun _ _ => rfl,
    manage_empty_unconditional [] ⟨[]⟩ ⟨FormsetModel.productImage, 0⟩
      ⟨FormsetModel.productVariation, 1⟩ rfl rfl
      (ShopEffects.mk (fun _ s => s) (fun _ s => s) (fun _ s => s))
      (fun _ _ _ => rfl) (fun _ _ => rfl)⟩

/-- A fieldset as the admin framework sees it: optional title, CSS classes
and the flat list of field names of its `fields` entry. -/
structure Fieldset where
  title : Option String
  classes : List String
  fields : List String
deriving DecidableEq, Repr

/-- The settings flags consulted by the product/variation configuration
code at module level. -/
structure ShopSettings where
  SHOP_USE_VARIATIONS : Bool
  SHOP_USE_RELATED_PRODUCTS : Bool
  SHOP_USE_UPSELL_PRODUCTS : Bool
deriving DecidableEq, Repr

/-- `variation_fields` after the module-level `SHOP_USE_VARIATIONS` branch:
the base field list, with `"default"` inserted at index 1 when variations
are in use. -/
def variation_fields (s : ShopSettings) : List String :=
  let base := ["sku", "num_in_stock", "unit_price", "currency",
               "sale_price", "sale_from", "sale_to", "image"]
  if s.SHOP_USE_VARIATIONS then pyInsert 1 "default" base else base

/-- `variations_max_num` (`none` models Python `None`: no maximum). -/
def variations_max_num (s : ShopSettings) : Option Nat :=
  if s.SHOP_USE_VARIATIONS then none else some 1

/-- `variations_extra`. -/
def variations_extra (s : ShopSettings) : Nat :=
  if s.SHOP_USE_VARIATIONS then 0 else 1

/-- `other_product_fields`, grown from the related/upsell flags. -/
def other_product_fields (s : ShopSettings) : List String :=
  (if s.SHOP_USE_RELATED_PRODUCTS then ["related_products"] else []) ++
    (if s.SHOP_USE_UPSELL_PRODUCTS then ["upsell_products"] else [])

/-- `extra_list_fields`: the denormalised fields exposed in the change
list when variations are not used. -/
def extra_list_fields : List String :=
  ["sku", "unit_price", "sale_price", "num_in_stock"]

/-- `product_fieldsets`, computed from Mezzanine's
`DisplayableAdmin.fieldsets` (external to this repository, so kept abstract
as the `displayableFieldsets` argument) and `option_fields` (names of the
`ProductVariation` option fields, likewise defined outside this file).
`none` models the `IndexError` Python would raise indexing an empty base
fieldsets tuple. -/
def product_fieldsets (displayableFieldsets : List Fieldset)
    (optionFields : List String) (s : ShopSettings) :
    Option (List Fieldset) :=
  match displayableFieldsets with
  | [] => none
  | fs0 :: rest =>
    let fs0 := { fs0 with
      fields :=
        pyInsert 3 "manufacturer" (pyInsert 2 "available" fs0.fields) ++
          ["content", "categories"] }
    let withOther := fs0 :: rest ++
      (if other_product_fields s ≠ [] then
        [Fieldset.mk (some "Other products") ["collapse-closed"]
          (other_product_fields s)]
      else [])
    some (if s.SHOP_USE_VARIATIONS then
      pyInsert 1 (Fieldset.mk (some "Create new variations")
        ["create-variations"] optionFields) withOther
    else withOther)

/-- `product_list_display` after the module-level branch. -/
def product_list_display (s : ShopSettings) : List String :=
  let base := ["admin_thumb", "title", "status", "available", "admin_link"]
  if s.SHOP_USE_VARIATIONS then base else pySplice 4 extra_list_fields base

/-- `product_list_editable` after the module-level branch. -/
def product_list_editable (s : ShopSettings) : List String :=
  let base := ["status", "available"]
  if s.SHOP_USE_VARIATIONS then base else base ++ extra_list_fields

/-- An element is a member of any `pyInsert` of itself. -/
theorem mem_pyInsert (i : Nat) (a : α) (l : List α) : a ∈ pyInsert i a l := by
  induction l generalizing i with
  | nil => simp [pyInsert]
  | cons x xs ih =>
    by_cases h : i = 0
    · simp [pyInsert, h]
    · simp only [pyInsert, h, if_false, List.mem_cons]
      exact Or.inr (ih (i - 1))

/-- C5: the admin configuration under the two `SHOP_USE_VARIATIONS` modes.
With the flag on, the product fieldsets contain a `"Create new
variations"` section listing the option fields, the variation inline
includes the `"default"` field, and it has no maximum row count.  With the
flag off, `sku`, `unit_price`, `sale_price` and `num_in_stock` are added to
both the change-list display and its editable fields, and the variation
inline is limited to `max_num = 1` with `extra = 1` and has no `"default"`
field. -/
theorem shop_use_variations_config (displayableFieldsets : List Fieldset)
    (optionFields : List String) (s : ShopSettings)
    (hne : displayableFieldsets ≠ []) :
    (s.SHOP_USE_VARIATIONS = true →
      (∃ pfs, product_fieldsets displayableFieldsets optionFields s =
          some pfs ∧
        Fieldset.mk (some "Create new variations") ["create-variations"]
          optionFields ∈ pfs) ∧
      "default" ∈ variation_fields s ∧
      variations_max_num s = none ∧
      variations_extra s = 0) ∧
    (s.SHOP_USE_VARIATIONS = false →
      (∀ f ∈ extra_list_fields,
        f ∈ product_list_display s ∧ f ∈ product_list_editable s) ∧
      "default" ∉ variation_fields s ∧
      variations_max_num s = some 1 ∧
      variations_extra s = 1) := by
  obtain ⟨fs0, rest, rfl⟩ : ∃ fs0 rest, displayableFieldsets = fs0 :: rest := by
    cases displayableFieldsets with
    | nil => exact absurd rfl hne
    | cons a l => exact ⟨a, l, rfl⟩
  constructor
  · intro h
    have hpf : product_fieldsets (fs0 :: rest) optionFields s =
        some (pyInsert 1
          (Fieldset.mk (some "Create new variations") ["create-variations"]
            optionFields)
          ({ fs0 with
              fields :=
                pyInsert 3 "manufacturer"
                  (pyInsert 2 "available" fs0.fields) ++
                  ["content", "categories"] } ::
            rest ++
            (if other_product_fields s ≠ [] then
              [Fieldset.mk (some "Other products") ["collapse-closed"]
                (other_product_fields s)]
            else []))) := by
      simp [product_fieldsets, h]
    refine ⟨⟨_, hpf, mem_pyInsert _ _ _⟩, ?_, ?_, ?_⟩
    · simp [variation_fields, h, pyInsert]
    · simp [variations_max_num, h]
    · simp [variations_extra, h]
  · intro h
    have hd : product_list_display s =
        ["admin_thumb", "title", "status", "available", "sku",
         "unit_price", "sale_price", "num_in_stock", "admin_link"] := by
      simp [product_list_display, h, pySplice, extra_list_fields]
    have he : product_list_editable s =
        ["status", "available", "sku", "unit_price", "sale_price",
         "num_in_stock"] := by
      simp [product_list_editable, h, extra_list_fields]
    refine ⟨?_, ?_, ?_, ?_⟩
    · intro f hf
      rw [hd, he]
      simp only [extra_list_fields, List.mem_cons, List.not_mem_nil,
        or_false] at hf
      rcases hf with h1 | h1 | h1 | h1 <;> subst h1 <;>
        exact ⟨by decide, by decide⟩
    · simp [variation_fields, h]
    · simp [variations_max_num, h]
    · simp [variations_extra, h]

/-- Witness for C5 at a concrete base fieldsets list, option fields and
settings. -/
theorem shop_use_variations_config_witness :
    ([Fieldset.mk (some "Content") [] ["title", "status"]] :
        List Fieldset) ≠ [] ∧
    ((ShopSettings.mk true false false).SHOP_USE_VARIATIONS = true →
      (∃ pfs, product_fieldsets
          [Fieldset.mk (some "Content") [] ["title", "status"]]
          ["option1"] (ShopSettings.mk true false false) = some pfs ∧
        Fieldset.mk (some "Create new variations") ["create-variations"]
          ["option1"] ∈ pfs) ∧
      "default" ∈ variation_fields (ShopSettings.mk true false false) ∧
      variations_max_num (ShopSettings.mk true false false) = none ∧
      variations_extra (ShopSettings.mk true false false) = 0) ∧
    ((ShopSettings.mk true false false).SHOP_USE_VARIATIONS = false →
      (∀ f ∈ extra_list_fields,
        f ∈ product_list_display (ShopSettings.mk true false false) ∧
          f ∈ product_list_editable (ShopSettings.mk true false false)) ∧
      "default" ∉ variation_fields (ShopSettings.mk true false false) ∧
      variations_max_num (ShopSettings.mk true false false) = some 1 ∧
      variations_extra (ShopSettings.mk true false false) = 1) :=
  ⟨List.cons_ne_nil _ _,
    shop_use_variations_config
      [Fieldset.mk (some "Content") [] ["title", "status"]]
      ["option1"] (ShopSettings.mk true false false)
      (List.cons_ne_nil _ _)⟩

/-- A product row as `change_view` sees it: its primary key and the result
of `get_content_model()` — `some (subclassModel, subclassId)` when the row
has a content-model subclass instance, `none` otherwise. -/
structure ProductRec where
  pk : Nat
  contentModel : Option (String × Nat)
deriving DecidableEq, Repr

/-- The possible outcomes of `ProductAdmin.change_view`, all of them
framework responses: the `Http404` raised by `get_object_or_404`, an
`HttpResponseRedirect` to `admin_url(subclass, "change", id)` (represented
by the subclass model and id it is built from), or delegation to the
inherited `change_view`. -/
inductive ChangeViewResult
  | http404
  | redirectToChange (subclassModel : String) (subclassId : Nat)
  | superChangeView (objectId : Nat)
deriving DecidableEq, Repr

/-- `get_object_or_404(Product, pk=object_id)`: the first row matching the
pk; `none` models the raised `Http404`. -/
def get_object_or_404 (db : List ProductRec) (pk : Nat) :
    Option ProductRec :=
  db.find? (fun p => p.pk == pk)

/-- `ProductAdmin.change_view`: for the admin registered for the base
`Product` model, look up the product (404 when absent) and redirect to the
content-model subclass's admin change URL when `get_content_model()`
yields a subclass instance; otherwise — and always for subclass admins —
delegate to the inherited view. -/
def change_view (modelIsProduct : Bool) (db : List ProductRec)
    (objectId : Nat) : ChangeViewResult :=
  if modelIsProduct then
    match get_object_or_404 db objectId with
    | none => ChangeViewResult.http404
    | some product =>
      match product.contentModel with
      | some (cls, cid) => ChangeViewResult.redirectToChange cls cid
      | none => ChangeViewResult.superChangeView objectId
  else ChangeViewResult.superChangeView objectId

/-- `ProductAdmin.in_menu`: hide subclasses from the admin menu. -/
def in_menu (modelIsProduct : Bool) : Bool :=
  modelIsProduct

/-- C7: the change view of a nonexistent product id produces the
framework's standard 404 response, raised by `get_object_or_404`; the
embedding's result type shows every outcome of the view is a framework
response, with no custom error of this file's own. -/
theorem change_view_missing_product_404 (db : List ProductRec)
    (objectId : Nat) (habsent : ∀ p ∈ db, p.pk ≠ objectId) :
    change_view true db objectId = ChangeViewResult.http404 := by
  have hfind : get_object_or_404 db objectId = none := by
    rw [get_object_or_404, List.find?_eq_none]
    intro p hp
    simp [habsent p hp]
  simp [change_view, hfind]

/-- Witness for C7 at a concrete database and a missing id. -/
theorem change_view_missing_product_404_witness :
    (∀ p ∈ [ProductRec.mk 1 none], p.pk ≠ 2) ∧
    change_view true [ProductRec.mk 1 none] 2 = ChangeViewResult.http404 :=
  ⟨by decide, change_view_missing_product_404 [ProductRec.mk 1 none] 2
    (by decide)⟩

/-- C10: on the base `Product` admin, `change_view` for a product whose
`get_content_model()` yields a subclass instance redirects to that
subclass's admin change URL; for an admin registered for any model other
than `Product`, `change_view` never redirects (it always delegates to the
inherited view) and `in_menu` returns `false`. -/
theorem change_view_subclass_redirect (db : List ProductRec)
    (objectId : Nat) (p : ProductRec) (cls : String) (cid : Nat)
    (hfound : get_object_or_404 db objectId = some p)
    (hcm : p.contentModel = some (cls, cid)) :
    change_view true db objectId =
        ChangeViewResult.redirectToChange cls cid ∧
    (∀ (db2 : List ProductRec) (oid2 : Nat),
      change_view false db2 oid2 = ChangeViewResult.superChangeView oid2) ∧
    in_menu false = false := by
  refine ⟨?_, fun _ _ => rfl, rfl⟩
  simp [change_view, hfound, hcm]

/-- Witness for C10 at a concrete database whose product row has a
`ProductTopka` content model. -/
theorem change_view_subclass_redirect_witness :
    get_object_or_404 [ProductRec.mk 1 (some ("producttopka", 5))] 1 =
        some (ProductRec.mk 1 (some ("producttopka", 5))) ∧
    (ProductRec.mk 1 (some ("producttopka", 5))).contentModel =
        some ("producttopka", 5) ∧
    (change_view true [ProductRec.mk 1 (some ("producttopka", 5))] 1 =
        ChangeViewResult.redirectToChange "producttopka" 5 ∧
    (∀ (db2 : List ProductRec) (oid2 : Nat),
      change_view false db2 oid2 = ChangeViewResult.superChangeView oid2) ∧
    in_menu false = false) :=
  ⟨by decide, rfl, change_view_subclass_redirect
    [ProductRec.mk 1 (some ("producttopka", 5))] 1
    (ProductRec.mk 1 (some ("producttopka", 5))) "producttopka" 5
    (by decide) rfl⟩

/-- An entry of the `address_pairs` result: a zipped pair of field names,
or the lone final field when the count is odd. -/
inductive AddressEntry
  | pair (a b : String)
  | single (a : String)
deriving DecidableEq, Repr

/-- Python `fields[::2]`: every second element starting at index 0. -/
def everySecond : List α → List α
  | [] => []
  | [a] => [a]
  | a :: _ :: rest => a :: everySecond rest

/-- `address_pairs(fields)`: zips the fields into consecutive pairs
(`zip(fields[::2], fields[1::2])`) and appends the last field unpaired
when the total is odd (`fields[-1]`; an odd length guarantees the list is
nonempty, so the subscript is defined). -/
def address_pairs (fields : List String) : List AddressEntry :=
  ((everySecond fields).zip (everySecond (fields.drop 1))).map
    (fun p => AddressEntry.pair p.1 p.2) ++
  (if fields.length % 2 = 1 then
    (fields.getLast?.map AddressEntry.single).toList
  else [])

/-- The claim's reading of `address_pairs`: chunk the list two at a time,
an odd final element remaining single. -/
def addressPairsChunked : List String → List AddressEntry
  | [] => []
  | [a] => [AddressEntry.single a]
  | a :: b :: rest => AddressEntry.pair a b :: addressPairsChunked rest

/-- Flatten `address_pairs` entries back into a list of field names. -/
def flattenEntries (l : List AddressEntry) : List String :=
  l.flatMap (fun e => match e with
    | AddressEntry.pair a b => [a, b]
    | AddressEntry.single a => [a])

/-- `everySecond` peels one element and then skips one. -/
theorem everySecond_cons (b : α) (l : List α) :
    everySecond (b :: l) = b :: everySecond (l.drop 1) := by
  cases l with
  | nil => rfl
  | cons c l2 => rfl

/-- `address_pairs` peels a full pair off the front. -/
theorem address_pairs_cons₂ (a b : String) (rest : List String) :
    address_pairs (a :: b :: rest) =
      AddressEntry.pair a b :: address_pairs rest := by
  cases rest with
  | nil => simp [address_pairs, everySecond]
  | cons c rest2 =>
    have hmod : (rest2.length + 1 + 1 + 1) % 2 = (rest2.length + 1) % 2 := by
      omega
    simp only [address_pairs, everySecond, everySecond_cons,
      List.drop_succ_cons, List.drop_zero, List.zip_cons_cons,
      List.map_cons, List.length_cons, List.getLast?_cons_cons,
      List.cons_append, hmod]

/-- The source's `address_pairs` computes exactly the chunked form. -/
theorem address_pairs_eq_chunked : ∀ fields : List String,
    address_pairs fields = addressPairsChunked fields
  | [] => rfl
  | [a] => rfl
  | a :: b :: rest => by
    rw [address_pairs_cons₂, address_pairs_eq_chunked rest]
    rfl

/-- Flattening the chunked form restores the input. -/
theorem flattenEntries_chunked : ∀ l : List String,
    flattenEntries (addressPairsChunked l) = l
  | [] => rfl
  | [a] => rfl
  | a :: b :: rest => by
    have ih := flattenEntries_chunked rest
    simp only [addressPairsChunked, flattenEntries, List.flatMap_cons] at ih ⊢
    simp [ih]

/-- The chunked form has `⌈n / 2⌉` entries. -/
theorem length_chunked : ∀ l : List String,
    (addressPairsChunked l).length = (l.length + 1) / 2
  | [] => rfl
  | [a] => by simp [addressPairsChunked]
  | a :: b :: rest => by
    have ih := length_chunked rest
    simp only [addressPairsChunked, List.length_cons] at ih ⊢
    omega

/-- C8: `address_pairs` returns the consecutive two-element pairs of its
input, an odd final element appended single as the last entry; flattening
the result restores the input list exactly (each element once, order
preserved), and the result has `⌈n / 2⌉` entries for an input of length
`n`. -/
theorem address_pairs_spec (fields : List String) :
    address_pairs fields = addressPairsChunked fields ∧
    flattenEntries (address_pairs fields) = fields ∧
    (address_pairs fields).length = (fields.length + 1) / 2 := by
  refine ⟨address_pairs_eq_chunked fields, ?_, ?_⟩
  · rw [address_pairs_eq_chunked fields]
    exact flattenEntries_chunked fields
  · rw [address_pairs_eq_chunked fields]
    exact length_chunked fields

/-- A heap of Python list objects: each cell holds a field-name list.  A
fieldset's `fields` entry is a reference into the heap, so the aliasing of
`self.fieldsets` with the class attribute `ProductAdmin.fieldsets`, and
in-place mutation by `list.insert`, can be expressed. -/
structure Heap where
  cells : List (List String)
deriving DecidableEq, Repr

/-- Dereference a fields list (out-of-range reads are never exercised by
the theorems; they default to `[]`). -/
def Heap.read (h : Heap) (r : Nat) : List String :=
  (h.cells[r]?).getD []

/-- In-place update of a fields list. -/
def Heap.write (h : Heap) (r : Nat) (v : List String) : Heap :=
  ⟨h.cells.set r v⟩

/-- Allocate a fresh list object, returning its reference. -/
def Heap.alloc (h : Heap) (v : List String) : Heap × Nat :=
  (⟨h.cells ++ [v]⟩, h.cells.length)

/-- A fieldset whose `fields` value is a reference to a heap cell. -/
structure FieldsetObj where
  title : Option String
  classes : List String
  fieldsRef : Nat
deriving DecidableEq, Repr

/-- `deepcopy(self.fieldsets)`: allocate a fresh cell per fieldset holding
a copy of its fields list, leaving the originals untouched. -/
def deepcopyFieldsets (h : Heap) : List FieldsetObj → Heap × List FieldsetObj
  | [] => (h, [])
  | fs :: rest =>
    let p := h.alloc (h.read fs.fieldsRef)
    let q := deepcopyFieldsets p.1 rest
    (q.1, { fs with fieldsRef := p.2 } :: q.2)

/-- Python structural equality `self.fieldsets == ProductAdmin.fieldsets`:
`==` on lists/tuples/dicts compares element contents, following the
references into the heap. -/
def fieldsetsEqContents (h : Heap) (a b : List FieldsetObj) : Bool :=
  a.length == b.length &&
    (a.zip b).all (fun p =>
      p.1.title == p.2.title && p.1.classes == p.2.classes &&
      h.read p.1.fieldsRef == h.read p.2.fieldsRef)

/-- A model field as `__init__`'s loop sees it: its name and whether it is
editable. -/
structure PyField where
  name : String
  editable : Bool
deriving DecidableEq, Repr

/-- The `check_fields` list built in the loop body: `Product`'s field
names, `"product_ptr"`, then `self.exclude` and `self.form.Meta.exclude`
when present (`none` models the attribute being absent or `None`, whose
`AttributeError`/`TypeError` the source catches and ignores).  The source
rebuilds this identical list on every loop iteration; it is loop-invariant,
so it is hoisted here. -/
def check_fields (productFieldNames : List String)
    (adminExclude formExclude : Option (List String)) : List String :=
  productFieldNames ++ ["product_ptr"] ++
    adminExclude.getD [] ++ formExclude.getD []

/-- One iteration of the `__init__` loop over `reversed(model._meta.fields)`:
skip the field when excluded or not editable, otherwise insert its name at
index 3 of `self.fieldsets[0][1]["fields"]` in place; `none` models the
`IndexError` Python would raise indexing an empty fieldsets list. -/
def initFieldStep (cf : List String) (fieldsets : List FieldsetObj)
    (acc : Option Heap) (f : PyField) : Option Heap :=
  match acc with
  | none => none
  | some hh =>
    if !(cf.contains f.name) && f.editable then
      match fieldsets.head? with
      | none => none
      | some fs0 =>
        some (hh.write fs0.fieldsRef
          (pyInsert 3 f.name (hh.read fs0.fieldsRef)))
    else some hh

/-- `ProductAdmin.__init__` after the `super().__init__` call: when the
instance's model is not `Product` and its fieldsets content-equal
`ProductAdmin.fieldsets`, deep-copy the fieldsets and insert each
non-excluded editable model field at index 3 of the first fieldset's
fields, iterating the model fields in reverse; otherwise leave the
instance untouched. -/
def productAdminInit (h : Heap) (modelIsProduct : Bool)
    (selfFieldsets productAdminFieldsets : List FieldsetObj)
    (modelFields : List PyField) (productFieldNames : List String)
    (adminExclude formExclude : Option (List String)) :
    Option (Heap × List FieldsetObj) :=
  if modelIsProduct = false ∧
      fieldsetsEqContents h selfFieldsets productAdminFieldsets = true then
    let hc := deepcopyFieldsets h selfFieldsets
    let cf := check_fields productFieldNames adminExclude formExclude
    match (modelFields.reverse).foldl (initFieldStep cf hc.2) (some hc.1) with
    | none => none
    | some h₂ => some (h₂, hc.2)
  else
    some (h, selfFieldsets)

theorem Heap.read_write_self (h : Heap) (r : Nat) (v : List String)
    (hr : r < h.cells.length) : (h.write r v).read r = v := by
  simp [Heap.read, Heap.write, List.getElem?_set_self hr]

theorem Heap.read_write_ne (h : Heap) (r r2 : Nat) (v : List String)
    (hne : r ≠ r2) : (h.write r v).read r2 = h.read r2 := by
  simp [Heap.read, Heap.write, List.getElem?_set_ne hne]

theorem Heap.length_write (h : Heap) (r : Nat) (v : List String) :
    (h.write r v).cells.length = h.cells.length := by
  simp [Heap.write]

/-- `deepcopyFieldsets` only appends fresh cells to the heap. -/
theorem deepcopyFieldsets_cells_ext :
    ∀ (l : List FieldsetObj) (h : Heap), ∃ ext,
      (deepcopyFieldsets h l).1.cells = h.cells ++ ext
  | [], h => ⟨[], by simp [deepcopyFieldsets]⟩
  | fs :: rest, h => by
    obtain ⟨ext, hext⟩ := deepcopyFieldsets_cells_ext rest
      ⟨h.cells ++ [h.read fs.fieldsRef]⟩
    exact ⟨h.read fs.fieldsRef :: ext, by
      simp [deepcopyFieldsets, Heap.alloc, hext]⟩

/-- The field loop succeeds when the fieldsets list is nonempty, writes
only the first fieldset's cell, and applies the insertions to it in loop
order. -/
theorem initFold_spec (cf : List String) (fsets : List FieldsetObj)
    (copy0 : FieldsetObj) (hhead : fsets.head? = some copy0) :
    ∀ (flds : List PyField) (hh : Heap),
      copy0.fieldsRef < hh.cells.length →
      ∃ h₂, flds.foldl (initFieldStep cf fsets) (some hh) = some h₂ ∧
        h₂.cells.length = hh.cells.length ∧
        (∀ r, r ≠ copy0.fieldsRef → h₂.read r = hh.read r) ∧
        h₂.read copy0.fieldsRef =
          flds.foldl (fun v f =>
            if !(cf.contains f.name) && f.editable then pyInsert 3 f.name v
            else v) (hh.read copy0.fieldsRef)
  | [], hh, _ => ⟨hh, rfl, rfl, fun _ _ => rfl, rfl⟩
  | f :: flds, hh, hr => by
    by_cases hc : (!(cf.contains f.name) && f.editable) = true
    · obtain ⟨h₂, h1, h2, h3, h4⟩ := initFold_spec cf fsets copy0 hhead flds
        (hh.write copy0.fieldsRef (pyInsert 3 f.name (hh.read copy0.fieldsRef)))
        (by rw [Heap.length_write]; exact hr)
      refine ⟨h₂, ?_, ?_, ?_, ?_⟩
      · rw [List.foldl_cons]
        simp only [initFieldStep, hc, if_true, hhead]
        exact h1
      · rw [h2, Heap.length_write]
      · intro r hrne
        rw [h3 r hrne, Heap.read_write_ne _ _ _ _ (Ne.symm hrne)]
      · rw [h4, Heap.read_write_self _ _ _ hr, List.foldl_cons, if_pos hc]
    · obtain ⟨h₂, h1, h2, h3, h4⟩ := initFold_spec cf fsets copy0 hhead flds hh hr
      refine ⟨h₂, ?_, h2, h3, ?_⟩
      · rw [List.foldl_cons]
        simp only [initFieldStep, hc, if_false]
        exact h1
      · rw [h4, List.foldl_cons, if_neg hc]

/-- `pyInsert` at an index within the list is a splice. -/
theorem pyInsert_eq_splice : ∀ (i : Nat) (a : α) (l : List α),
    i ≤ l.length → pyInsert i a l = l.take i ++ a :: l.drop i
  | 0, a, l, _ => by cases l <;> simp [pyInsert]
  | i + 1, a, [], h => by simp at h
  | i + 1, a, x :: xs, h => by
    have ih := pyInsert_eq_splice i a xs (by simpa using h)
    simp only [pyInsert, Nat.succ_ne_zero, if_false, Nat.add_sub_cancel,
      List.take_succ_cons, List.drop_succ_cons, ih, List.cons_append]

/-- Inserting a reversed field list at index 3 one at a time splices the
filtered field names in declared order at index 3. -/
theorem foldr_insert_splice (cf : List String) :
    ∀ (flds : List PyField) (v : List String), 3 ≤ v.length →
      flds.foldr (fun f v =>
          if !(cf.contains f.name) && f.editable then pyInsert 3 f.name v
          else v) v =
        v.take 3 ++
          (flds.filter (fun f => !(cf.contains f.name) && f.editable)).map
            PyField.name ++ v.drop 3
  | [], v, _ => by simp
  | f :: flds, v, hv => by
    have ih := foldr_insert_splice cf flds v hv
    have ht : (v.take 3).length = 3 := by
      rw [List.length_take]
      omega
    rw [List.foldr_cons, ih]
    by_cases hc : (!(cf.contains f.name) && f.editable) = true
    · rw [if_pos hc, pyInsert_eq_splice 3 f.name _ (by
        simp only [List.length_append]
        omega)]
      rw [List.append_assoc, List.take_left' ht, List.drop_left' ht]
      have hp : f.name ∉ cf ∧ f.editable = true := by simpa using hc
      simp [List.filter_cons, hp.1, hp.2]
    · rw [if_neg hc]
      have hn : ¬(f.name ∉ cf ∧ f.editable = true) := by simpa using hc
      simp [List.filter_cons, hn]

/-- C9: instantiating `ProductAdmin` for a `Product` subclass whose
fieldsets content-equal `ProductAdmin`'s deep-copies the fieldsets before
inserting, so every pre-existing heap cell — class-level
`ProductAdmin.fieldsets` and every other admin class's fields list — reads
unchanged afterwards; the instance's first fieldset becomes a fresh cell
(reference at or past the old heap end) whose contents are the old fields
with exactly the subclass's editable model fields not among `Product`'s
fields, `"product_ptr"` or the admin/form exclude lists spliced in at
index 3, in the model's declared field order. -/
theorem productAdminInit_deepcopy_insert (h : Heap)
    (fs0 : FieldsetObj) (restFS : List FieldsetObj)
    (productAdminFieldsets : List FieldsetObj)
    (modelFields : List PyField) (productFieldNames : List String)
    (adminExclude formExclude : Option (List String))
    (heq : fieldsetsEqContents h (fs0 :: restFS) productAdminFieldsets = true)
    (hlen : 3 ≤ (h.read fs0.fieldsRef).length) :
    ∃ h₂ copiesRest,
      productAdminInit h false (fs0 :: restFS) productAdminFieldsets
          modelFields productFieldNames adminExclude formExclude =
        some (h₂,
          FieldsetObj.mk fs0.title fs0.classes h.cells.length ::
            copiesRest) ∧
      (∀ r < h.cells.length, h₂.read r = h.read r) ∧
      h.cells.length < h₂.cells.length ∧
      h₂.read h.cells.length =
        (h.read fs0.fieldsRef).take 3 ++
          (modelFields.filter (fun f =>
            !((check_fields productFieldNames adminExclude
                formExclude).contains f.name) && f.editable)).map
            PyField.name ++
          (h.read fs0.fieldsRef).drop 3 := by
  obtain ⟨ext, hext⟩ := deepcopyFieldsets_cells_ext restFS
    ⟨h.cells ++ [h.read fs0.fieldsRef]⟩
  have hcells : (deepcopyFieldsets ⟨h.cells ++ [h.read fs0.fieldsRef]⟩
      restFS).1.cells = (h.cells ++ [h.read fs0.fieldsRef]) ++ ext := hext
  have hdc : deepcopyFieldsets h (fs0 :: restFS) =
      ((deepcopyFieldsets ⟨h.cells ++ [h.read fs0.fieldsRef]⟩ restFS).1,
        FieldsetObj.mk fs0.title fs0.classes h.cells.length ::
          (deepcopyFieldsets ⟨h.cells ++ [h.read fs0.fieldsRef]⟩
            restFS).2) := rfl
  have hr : (FieldsetObj.mk fs0.title fs0.classes h.cells.length).fieldsRef <
      (deepcopyFieldsets ⟨h.cells ++ [h.read fs0.fieldsRef]⟩
        restFS).1.cells.length := by
    rw [hcells]
    simp only [List.length_append, List.length_cons, List.length_nil]
    omega
  obtain ⟨h₂, hfold, hlen₂, hother, hval⟩ :=
    initFold_spec (check_fields productFieldNames adminExclude formExclude)
      (FieldsetObj.mk fs0.title fs0.classes h.cells.length ::
        (deepcopyFieldsets ⟨h.cells ++ [h.read fs0.fieldsRef]⟩ restFS).2)
      (FieldsetObj.mk fs0.title fs0.classes h.cells.length) rfl
      modelFields.reverse
      (deepcopyFieldsets ⟨h.cells ++ [h.read fs0.fieldsRef]⟩ restFS).1 hr
  have hread0 : (deepcopyFieldsets ⟨h.cells ++ [h.read fs0.fieldsRef]⟩
      restFS).1.read h.cells.length = h.read fs0.fieldsRef := by
    rw [Heap.read, hcells, List.getElem?_append_left (by
      simp only [List.length_append, List.length_cons, List.length_nil]
      omega), List.getElem?_concat_length]
    rfl
  have hreadOld : ∀ r < h.cells.length,
      (deepcopyFieldsets ⟨h.cells ++ [h.read fs0.fieldsRef]⟩
        restFS).1.read r = h.read r := by
    intro r hrlt
    rw [Heap.read, hcells, List.getElem?_append_left (by
        simp only [List.length_append, List.length_cons, List.length_nil]
        omega),
      List.getElem?_append_left hrlt]
    rfl
  have hinit : productAdminInit h false (fs0 :: restFS)
      productAdminFieldsets modelFields productFieldNames adminExclude
      formExclude =
      some (h₂, FieldsetObj.mk fs0.title fs0.classes h.cells.length ::
        (deepcopyFieldsets ⟨h.cells ++ [h.read fs0.fieldsRef]⟩
          restFS).2) := by
    simp only [productAdminInit]
    rw [if_pos ⟨trivial, heq⟩, hdc]
    dsimp only
    rw [hfold]
  refine ⟨h₂, _, hinit, ?_, ?_, ?_⟩
  · intro r hrlt
    have hne : r ≠ (FieldsetObj.mk fs0.title fs0.classes
        h.cells.length).fieldsRef := by
      simp only []
      omega
    rw [hother r hne, hreadOld r hrlt]
  · rw [hlen₂, hcells]
    simp only [List.length_append, List.length_cons, List.length_nil]
    omega
  · have hval2 : h₂.read h.cells.length =
        (modelFields.reverse).foldl (fun v f =>
          if !((check_fields productFieldNames adminExclude
              formExclude).contains f.name) && f.editable
          then pyInsert 3 f.name v else v)
          (h.read fs0.fieldsRef) := by
      rw [← hread0]
      exact hval
    rw [hval2, List.foldl_reverse]
    exact foldr_insert_splice _ modelFields _ hlen

/-- Witness for C9 at a concrete heap, fieldsets and model fields: the
subclass contributes editable fields `power` and `mass`, while `title`
(a `Product` field) and the non-editable `secret` are skipped. -/
theorem productAdminInit_deepcopy_insert_witness :
    fieldsetsEqContents ⟨[["title", "status", "available", "content"]]⟩
        [FieldsetObj.mk (some "Content") [] 0]
        [FieldsetObj.mk (some "Content") [] 0] = true ∧
    3 ≤ ((Heap.mk [["title", "status", "available", "content"]]).read
        0).length ∧
    ∃ h₂ copiesRest,
      productAdminInit ⟨[["title", "status", "available", "content"]]⟩ false
          [FieldsetObj.mk (some "Content") [] 0]
          [FieldsetObj.mk (some "Content") [] 0]
          [PyField.mk "power" true, PyField.mk "mass" true,
           PyField.mk "title" true, PyField.mk "secret" false]
          ["title", "status"] none none =
        some (h₂,
          FieldsetObj.mk (some "Content") []
              (Heap.mk [["title", "status", "available",
                "content"]]).cells.length ::
            copiesRest) ∧
      (∀ r < (Heap.mk [["title", "status", "available",
          "content"]]).cells.length,
        h₂.read r =
          (Heap.mk [["title", "status", "available", "content"]]).read r) ∧
      (Heap.mk [["title", "status", "available",
        "content"]]).cells.length < h₂.cells.length ∧
      h₂.read (Heap.mk [["title", "status", "available",
          "content"]]).cells.length =
        ((Heap.mk [["title", "status", "available", "content"]]).read
            0).take 3 ++
          (([PyField.mk "power" true, PyField.mk "mass" true,
            PyField.mk "title" true, PyField.mk "secret" false].filter
              (fun f =>
                !((check_fields ["title", "status"] none
                    none).contains f.name) && f.editable)).map
            PyField.name) ++
          ((Heap.mk [["title", "status", "available", "content"]]).read
            0).drop 3 :=
  ⟨by decide, by decide,
    productAdminInit_deepcopy_insert
      ⟨[["title", "status", "available", "content"]]⟩
      (FieldsetObj.mk (some "Content") [] 0) []
      [FieldsetObj.mk (some "Content") [] 0]
      [PyField.mk "power" true, PyField.mk "mass" true,
       PyField.mk "title" true, PyField.mk "secret" false]
      ["title", "status"] none none (by decide) (by decide)⟩

end ShopAdmin
